import Mathlib

/-!
# Verification of the ai-cowork CLI

Shallow embedding of the ai-cowork CLI's executable logic:

* `cli/src/commands/sync.ts` — the Format Converter (`convertSkillToOpenCode`,
  `convertAgentToOpenCode`) and the generators (`generateOpenCodeConfig`,
  `generateAgentsMd`), plus the per-skill batch loop of `syncOpenCode`;
* `cli/src/utils/detector.ts` — the Stack Detector (`detectStack`);
* `cli/src/commands/init.ts` — the call site of the Directory Synchronizer;
* `cli/src/commands/add.ts` — `addSkill`.

File-system effects are embedded as explicit state passing over an
association list of (path, contents); JavaScript regular expressions are
embedded by a direct implementation of their backtracking semantics for the
two patterns the code uses.
-/

/-! ## JavaScript regex semantics for the two markdown patterns

`sync.ts` extracts titles and descriptions with
`content.match(/^#\s+(.+)$/m)` and `content.match(/^>\s*(.+)$/m)`.
We model exactly these two patterns over `List Char`, following the
ECMAScript semantics: `\s` is the JS whitespace class, `.` excludes line
terminators, `^`/`$` with the `m` flag match at line boundaries, quantifiers
are greedy with backtracking, and `match` returns the leftmost match. -/

/-- The ECMAScript `\s` character class (WhiteSpace ∪ LineTerminator). -/
def jsWhitespace (c : Char) : Bool :=
  c = ' ' ∨ c = '\t' ∨ c = '\n' ∨ c.toNat = 0x0b ∨ c.toNat = 0x0c ∨ c = '\r' ∨
  c.toNat = 0xa0 ∨ c.toNat = 0x1680 ∨ (0x2000 ≤ c.toNat ∧ c.toNat ≤ 0x200a) ∨
  c.toNat = 0x2028 ∨ c.toNat = 0x2029 ∨ c.toNat = 0x202f ∨ c.toNat = 0x205f ∨
  c.toNat = 0x3000 ∨ c.toNat = 0xfeff

/-- The ECMAScript LineTerminator class: `.` excludes these, and with the
`m` flag `^` matches after one and `$` matches before one. -/
def jsLineTerm (c : Char) : Bool :=
  c = '\n' ∨ c = '\r' ∨ c.toNat = 0x2028 ∨ c.toNat = 0x2029

/-- Match `(.+)$` at the current position: a greedy nonempty run of
non-line-terminator characters followed by a line boundary.  Because the
run is maximal, `$` always holds right after it, so no backtracking into
`(.+)` is ever needed; the capture is the maximal run. -/
def matchDotPlusEol : List Char → Option (List Char)
  | [] => none
  | c :: rest =>
    if jsLineTerm c then none
    else some ((c :: rest).takeWhile (fun d => ¬ jsLineTerm d))

/-- Match `\s+(.+)$` at the current position with greedy backtracking on
`\s+`: longer whitespace runs are tried first, exactly as a backtracking
regex engine does. -/
def wsPlusDotEol : List Char → Option (List Char)
  | [] => none
  | c :: rest =>
    if jsWhitespace c then
      match wsPlusDotEol rest with
      | some t => some t
      | none => matchDotPlusEol rest
    else none

/-- Match `\s*(.+)$` at the current position with greedy backtracking on
`\s*` (zero or more, longest first). -/
def wsStarDotEol : List Char → Option (List Char)
  | [] => none
  | c :: rest =>
    if jsWhitespace c then
      match wsStarDotEol rest with
      | some t => some t
      | none => matchDotPlusEol (c :: rest)
    else matchDotPlusEol (c :: rest)

/-- Scan for the leftmost match of `/^#\s+(.+)$/m` and return capture
group 1.  The flag records whether `^` holds at the current position
(start of input or just after a line terminator). -/
def findHeadingFrom : Bool → List Char → Option (List Char)
  | _, [] => none
  | atStart, c :: rest =>
    if atStart ∧ c = '#' then
      match wsPlusDotEol rest with
      | some t => some t
      | none => findHeadingFrom (jsLineTerm c) rest
    else findHeadingFrom (jsLineTerm c) rest

/-- Scan for the leftmost match of `/^>\s*(.+)$/m` and return capture
group 1. -/
def findQuoteFrom : Bool → List Char → Option (List Char)
  | _, [] => none
  | atStart, c :: rest =>
    if atStart ∧ c = '>' then
      match wsStarDotEol rest with
      | some t => some t
      | none => findQuoteFrom (jsLineTerm c) rest
    else findQuoteFrom (jsLineTerm c) rest

/-- `content.match(/^#\s+(.+)$/m)`, returning group 1 as a string. -/
def titleMatch (content : String) : Option String :=
  (findHeadingFrom true content.data).map String.mk

/-- `content.match(/^>\s*(.+)$/m)`, returning group 1 as a string. -/
def descMatch (content : String) : Option String :=
  (findQuoteFrom true content.data).map String.mk

/-! ## The Format Converter (sync.ts)

`convertSkillToOpenCode` and `convertAgentToOpenCode` are pure in the
content they produce; we first embed the string-level conversion, then the
file-system effects. -/

/-- The YAML frontmatter block `convertSkillToOpenCode` emits (the part of
the template literal up to and including the closing `---`). -/
def skillFrontmatter (skillName description : String) : String :=
  "---\nname: " ++ skillName ++ "\ndescription: " ++ description ++
  "\nlicense: MIT\ncompatibility: opencode\nmetadata:\n  source: ai-dev-system\n---"

/-- The title computed at sync.ts line 33:
`titleMatch ? titleMatch[1] : skillName`. -/
def skillTitle (skillName content : String) : String :=
  match titleMatch content with
  | some t => t
  | none => skillName

/-- The description computed at sync.ts line 34:
`descMatch ? descMatch[1] : title + " skill"`. -/
def skillDescription (skillName content : String) : String :=
  match descMatch content with
  | some d => d
  | none => skillTitle skillName content ++ " skill"

/-- The full `openCodeContent` string built by `convertSkillToOpenCode`
(sync.ts lines 37–47): frontmatter, blank line, original content, newline. -/
def convertSkillContent (skillName content : String) : String :=
  skillFrontmatter skillName (skillDescription skillName content) ++
  "\n\n" ++ content ++ "\n"

/-- The description computed at sync.ts lines 65–66 for agents:
`content.match(/^#\s+(.+)$/m) || content.match(/^>\s*(.+)$/m)`, defaulting
to `agentName + " agent"`.  Note the heading pattern is tried first. -/
def agentDescription (agentName content : String) : String :=
  match titleMatch content with
  | some t => t
  | none =>
    match descMatch content with
    | some d => d
    | none => agentName ++ " agent"

/-- The frontmatter block `convertAgentToOpenCode` emits. -/
def agentFrontmatter (description : String) : String :=
  "---\ndescription: " ++ description ++ "\nmodel: anthropic/claude-sonnet-4-5\n---"

/-- The full `openCodeContent` string built by `convertAgentToOpenCode`
(sync.ts lines 69–75). -/
def convertAgentContent (agentName content : String) : String :=
  agentFrontmatter (agentDescription agentName content) ++ "\n\n" ++ content ++ "\n"

/-! ## Substring containment (for reasoning about "the header contains …") -/

/-- `startsWithL pre l` holds when `pre` is an initial segment of `l`. -/
def startsWithL : List Char → List Char → Bool
  | [], _ => true
  | _ :: _, [] => false
  | a :: as, b :: bs => if a = b then startsWithL as bs else false

/-- `containsSubL needle hay`: `needle` occurs contiguously inside `hay`. -/
def containsSubL (needle : List Char) : List Char → Bool
  | [] => startsWithL needle []
  | c :: rest => if startsWithL needle (c :: rest) then true else containsSubL needle rest

/-! ## The Stack Detector (detector.ts)

`detectStack` reads `composer.json` and `package.json`, merges the
dependency maps with object spread, and tests known dependency names for
truthiness.  We model a project directory by the parse outcome of each
manifest (`none` = file absent, `some none` = present but malformed — the
`catch` branch — and `some (some m)` = parsed) together with the top-level
directory listing (`none` models a failing `readdir`, whose `.catch` yields
`[]`).  Dependency maps are association lists of (name, version string);
a JSON string value is truthy exactly when it is nonempty. -/

/-- Last-binding lookup in a JS object literal given as an association
list (later keys override earlier ones, as in `JSON.parse`). -/
def jsLookup (k : String) : List (String × String) → Option String
  | [] => none
  | (k', v) :: rest =>
    match jsLookup k rest with
    | some v' => some v'
    | none => if k' = k then some v else none

/-- `{...a, ...b}[k]` for two dependency maps: keys of `b` override `a`. -/
def spreadLookup (a b : List (String × String)) (k : String) : Option String :=
  match jsLookup k b with
  | some v => some v
  | none => jsLookup k a

/-- Truthiness of `deps[k]` where values are JSON strings. -/
def depTruthy (a b : List (String × String)) (k : String) : Bool :=
  match spreadLookup a b k with
  | some v => v ≠ ""
  | none => false

/-- Parsed `composer.json`: the `require` and `require-dev` maps. -/
structure ComposerJson where
  require : List (String × String)
  requireDev : List (String × String)
deriving Repr, DecidableEq

/-- Parsed `package.json`: the `dependencies` and `devDependencies` maps. -/
structure PackageJson where
  dependencies : List (String × String)
  devDependencies : List (String × String)
deriving Repr, DecidableEq

/-- The observable state of a project directory as `detectStack` reads it. -/
structure ProjectDir where
  /-- `composer.json`: absent / malformed / parsed. -/
  composer : Option (Option ComposerJson)
  /-- `package.json`: absent / malformed / parsed. -/
  package : Option (Option PackageJson)
  /-- Top-level entries; `none` models a failing `readdir` (caught to `[]`). -/
  files : Option (List String)
deriving Repr, DecidableEq

/-- The `Stack` union type from paths.ts (the three labels the detector
and the init command use). -/
inductive Stack
  | reactTypescript
  | phpLaravel
  | nodeExpress
deriving Repr, DecidableEq

/-- Confidence levels of a detection result. -/
inductive Confidence
  | high
  | medium
  | low
deriving Repr, DecidableEq

/-- `DetectionResult` from detector.ts. -/
structure DetectionResult where
  stack : Option Stack
  confidence : Confidence
  reason : String
deriving Repr, DecidableEq

/-- The guard of the composer branch (detector.ts line 24):
`composer.json` exists, parses, and the merged map has a truthy
`laravel/framework` entry. -/
def composerHasLaravel (d : ProjectDir) : Bool :=
  match d.composer with
  | some (some c) => depTruthy c.require c.requireDev "laravel/framework"
  | _ => false

/-- The react guard of the package branch (detector.ts line 44). -/
def packageHasReact (d : ProjectDir) : Bool :=
  match d.package with
  | some (some p) =>
    depTruthy p.dependencies p.devDependencies "react" ||
    depTruthy p.dependencies p.devDependencies "react-dom"
  | _ => false

/-- The express guard of the package branch (detector.ts line 53). -/
def packageHasExpress (d : ProjectDir) : Bool :=
  match d.package with
  | some (some p) => depTruthy p.dependencies p.devDependencies "express"
  | _ => false

/-- The typescript guard of the package branch (detector.ts line 62). -/
def packageHasTypescript (d : ProjectDir) : Bool :=
  match d.package with
  | some (some p) => depTruthy p.dependencies p.devDependencies "typescript"
  | _ => false

/-- The extension-scan fallback (detector.ts lines 74–101): `readdir` with
`.catch(() => [])`, then `.tsx` before `.php`, else no detection. -/
def extensionScan (files : Option (List String)) : DetectionResult :=
  let fs := files.getD []
  if fs.any (fun f => f.endsWith ".tsx") then
    ⟨some .reactTypescript, .medium, "Found .tsx files in project root"⟩
  else if fs.any (fun f => f.endsWith ".php") then
    ⟨some .phpLaravel, .low, "Found .php files (assuming Laravel)"⟩
  else
    ⟨none, .low, "Could not detect stack"⟩

/-- `detectStack` (detector.ts lines 14–101).  Each early `return` of the
source becomes a branch; a malformed manifest (`some none`) has every
guard false, exactly as the source's `catch \x7b\x7d` falls through. -/
def detectStack (d : ProjectDir) : DetectionResult :=
  if composerHasLaravel d then
    ⟨some .phpLaravel, .high, "Found laravel/framework in composer.json"⟩
  else if packageHasReact d then
    ⟨some .reactTypescript, .high, "Found react in package.json"⟩
  else if packageHasExpress d then
    ⟨some .nodeExpress, .high, "Found express in package.json"⟩
  else if packageHasTypescript d then
    ⟨some .reactTypescript, .low, "Found typescript but no specific framework"⟩
  else
    extensionScan d.files

/-! ## File-system model

Writes in sync.ts and add.ts are embedded as explicit state passing over an
association list of (absolute path, contents); a write prepends and lookup
takes the most recent entry.  `path.join a b` is embedded as `a ++ "/" ++ b`
(the callers pass normalized, slash-free segments).  `mkdirSync` with
`recursive: true` never fails and does not affect file contents, so it has
no counterpart in the file map; directories that the code *tests* (add.ts)
are modelled separately below. -/

/-- A file system: association list from path to contents, newest first. -/
def FS : Type := List (String × String)

/-- `fs.readFileSync` / content lookup (most recent write wins). -/
def getFile (fs : FS) (p : String) : Option String :=
  (fs.find? (fun e => e.1 = p)).map (fun e => e.2)

/-- `fs.existsSync` for files. -/
def existsFile (fs : FS) (p : String) : Bool :=
  (getFile fs p).isSome

/-- `fs.writeFileSync`: unconditional write (creating or replacing). -/
def writeFileSync (fs : FS) (p c : String) : FS :=
  (p, c) :: fs

/-- The exact string `JSON.stringify(config, null, 2)` produces for the
`config` object literal of `generateOpenCodeConfig` (sync.ts lines
127–152): two-space indentation, keys in insertion order. -/
def openCodeConfigJson : String :=
  "\x7b\n  \"$schema\": \"https://opencode.ai/config.json\",\n  \"theme\": \"opencode\",\n  \"autoupdate\": true,\n  \"share\": \"manual\",\n  \"instructions\": [\n    \".ai/context/index.md\"\n  ],\n  \"permission\": \x7b\n    \"edit\": \"allow\",\n    \"write\": \"allow\",\n    \"bash\": \"allow\",\n    \"skill\": \x7b\n      \"*\": \"allow\"\n    \x7d\n  \x7d,\n  \"compaction\": \x7b\n    \"auto\": true,\n    \"prune\": true\n  \x7d,\n  \"formatter\": \x7b\n    \"prettier\": \x7b\n      \"disabled\": false\n    \x7d\n  \x7d\n\x7d"

/-- `generateOpenCodeConfig` (sync.ts lines 126–158): writes
`opencode.json` into the project directory *unconditionally* — there is no
`existsSync` guard on this path. -/
def generateOpenCodeConfig (fs : FS) (projectDir : String) : FS :=
  writeFileSync fs (projectDir ++ "/opencode.json") openCodeConfigJson

/-- The AGENTS.md template of `generateAgentsMd` (sync.ts lines 164–216). -/
def agentsMdContent (projectName : String) : String :=
  "# " ++ projectName ++
  "\n\n## Project Overview\n\n[Brief description of the project]\n\n## Tech Stack\n\n[List the main technologies used]\n\n## Development Commands\n\n```bash\n# Install dependencies\nnpm install  # or bun install\n\n# Run development server\nnpm run dev\n\n# Run tests\nnpm test\n\n# Build for production\nnpm run build\n```\n\n## Project Structure\n\n```\nsrc/\n├── components/    # UI components\n├── lib/           # Utility functions\n├── api/           # API routes/handlers\n└── types/         # TypeScript types\n```\n\n## Coding Standards\n\n- Follow the standards in `.ai/context/core/standards/`\n- Use conventional commits for git messages\n- Write tests for new features\n\n## Context Files\n\nThis project uses ai-dev-system for AI-assisted development:\n\n- `.ai/context/` - Coding standards and workflows\n- `.ai/skills/` - Reusable AI skills\n- `.ai/agents/` - Specialized AI agents\n- `.ai/stacks/` - Tech stack configurations\n\nLoad context with: `@.ai/context/index.md`\n"

/-- `generateAgentsMd` (sync.ts lines 163–222): writes AGENTS.md only when
it does not already exist. -/
def generateAgentsMd (fs : FS) (projectDir projectName : String) : FS :=
  let agentsMdPath := projectDir ++ "/AGENTS.md"
  if existsFile fs agentsMdPath then fs
  else writeFileSync fs agentsMdPath (agentsMdContent projectName)

/-- `convertSkillToOpenCode` (sync.ts lines 19–52) at the file-system
level: if `<sourceSkillPath>/SKILL.md` does not exist the function returns
with no effect; otherwise it writes the converted content to
`<targetDir>/<skillName>/SKILL.md`. -/
def convertSkillToOpenCode (fs : FS) (sourceSkillPath targetDir skillName : String) : FS :=
  let sourceFile := sourceSkillPath ++ "/SKILL.md"
  match getFile fs sourceFile with
  | none => fs
  | some content =>
    writeFileSync fs (targetDir ++ "/" ++ skillName ++ "/SKILL.md")
      (convertSkillContent skillName content)

/-- The skill loop of `syncOpenCode` (sync.ts lines 327–333): convert each
skill folder of the batch in order. -/
def convertSkillsBatch (skillsDir targetDir : String) (skills : List String) (fs : FS) : FS :=
  match skills with
  | [] => fs
  | s :: rest =>
    convertSkillsBatch skillsDir targetDir rest
      (convertSkillToOpenCode fs (skillsDir ++ "/" ++ s) targetDir s)

/-! ## The Directory Synchronizer (copy.ts — modelled from the spec) -/

/-- Modelled from the spec: `copyAiDirectory` lives in
`cli/src/utils/copy.ts`, which is not part of the source snapshot (only
its call site in init.ts, lines 160–164, is).  Spec §4.2: given the items
to copy (relative path with content) and an overwrite flag, existing
target files are left untouched unless the flag is set, each processed
item is reported as copied or skipped, and the items are processed
sequentially.  In this pure model writes cannot fail, so the spec's error
list is always empty and is omitted.  Returns (file system, copied list,
skipped list). -/
def copyAiDirectory : List (String × String) → Bool → FS → FS × List String × List String
  | [], _, fs => (fs, [], [])
  | (p, c) :: rest, ow, fs =>
    if existsFile fs p ∧ ¬ ow then
      let r := copyAiDirectory rest ow fs
      (r.1, r.2.1, p :: r.2.2)
    else
      let r := copyAiDirectory rest ow (writeFileSync fs p c)
      (r.1, p :: r.2.1, r.2.2)

/-! ## The add-skill command (add.ts)

`addSkill` only *tests* directories and copies one directory subtree, so
the relevant state is: which skill folders exist in the bundled source
tree, and which destination directories already exist in the target.
`fs.ensureDir` plus `fs.copy` is abstracted to recording the destination
directory; the coloured console output is modelled by the plain message
texts that matter for the command's observable behaviour. -/

/-- One entry of `readdir(sourceDir/stacks)` together with what add.ts
observes under it: whether `stacks/<name>/skills` exists as a directory,
its `readdir` listing, and which of those entries are directories. -/
structure StackEntry where
  name : String
  hasSkillsDir : Bool
  skillsEntries : List String
  skillDirNames : List String
deriving Repr, DecidableEq

/-- The bundled source tree as add.ts observes it: the `readdir` listing
of `skills/` (empty when the directory is missing, via `.catch`), the
subset of entries that are directories, and the stacks. -/
structure SourceTree where
  skillsEntries : List String
  skillDirNames : List String
  stackEntries : List StackEntry
deriving Repr, DecidableEq

/-- The target project state: which directories exist under it. -/
structure TargetState where
  dirs : List String
deriving Repr, DecidableEq

/-- Result of one `addSkill` run: final target state and console output. -/
structure AddOutcome where
  state : TargetState
  messages : List String
deriving Repr, DecidableEq

/-- Whether `stacks/<st.name>/skills/<name>` exists as a directory (the
per-stack test of the search loop, add.ts line 105). -/
def stackHasSkillDir (st : StackEntry) (name : String) : Bool :=
  st.hasSkillsDir && st.skillDirNames.contains name

/-- The stack-search loop of add.ts (lines 99–111): the first stack whose
`stacks/<stack>/skills/<name>` exists as a directory. -/
def findSkillInStacks (sts : List StackEntry) (name : String) : Option StackEntry :=
  sts.find? (fun st => stackHasSkillDir st name)

/-- The per-stack part of the "Available skills" listing (add.ts lines
127–137): for each stack whose skills directory exists and is nonempty, a
header line then one line per entry. -/
def stackSkillMessages : List StackEntry → List String
  | [] => []
  | st :: rest =>
    (if st.hasSkillsDir && !st.skillsEntries.isEmpty then
      ("  " ++ st.name ++ " skills:") :: st.skillsEntries.map (fun s => "    - " ++ s)
    else []) ++ stackSkillMessages rest

/-- The full console output of the not-found branch of `addSkill` (add.ts
lines 114–139). -/
def skillNotFoundMessages (src : SourceTree) (name : String) : List String :=
  ("Skill not found: " ++ name) :: "Available skills:" ::
  ((if src.skillsEntries.isEmpty then []
    else "  Core skills:" :: src.skillsEntries.map (fun s => "    - " ++ s)) ++
   stackSkillMessages src.stackEntries)

/-- The copy tail of `addSkill` (add.ts lines 142–154): warn and do
nothing when the destination directory already exists, otherwise copy the
skill folder there. -/
def addSkillCopy (tgt : TargetState) (destPath name : String) : AddOutcome :=
  if tgt.dirs.contains destPath then
    ⟨tgt, ["Skill already exists: " ++ name]⟩
  else
    ⟨⟨destPath :: tgt.dirs⟩, ["Added skill: " ++ name]⟩

/-- `addSkill` (add.ts lines 88–154): look the skill up under `skills/`,
then under each stack's `skills/`; if found nowhere, print the available
skills and change nothing. -/
def addSkill (src : SourceTree) (tgt : TargetState) (targetAiDir name : String) : AddOutcome :=
  if src.skillDirNames.contains name then
    addSkillCopy tgt (targetAiDir ++ "/skills/" ++ name) name
  else
    match findSkillInStacks src.stackEntries name with
    | some st => addSkillCopy tgt (targetAiDir ++ "/stacks/" ++ st.name ++ "/skills/" ++ name) name
    | none => ⟨tgt, skillNotFoundMessages src name⟩

/-! ## Helper lemmas -/

theorem startsWithL_append_self (l t : List Char) : startsWithL l (l ++ t) = true := by
  induction l with
  | nil => rfl
  | cons a as ih => simp [startsWithL, ih]

theorem containsSubL_of_startsWithL {needle hay : List Char}
    (h : startsWithL needle hay = true) : containsSubL needle hay = true := by
  cases hay with
  | nil => simpa [containsSubL] using h
  | cons c rest => simp [containsSubL, h]

theorem containsSubL_append (pre needle post : List Char) :
    containsSubL needle (pre ++ needle ++ post) = true := by
  induction pre with
  | nil => exact containsSubL_of_startsWithL (startsWithL_append_self needle post)
  | cons c pre ih =>
    show containsSubL needle (c :: (pre ++ needle ++ post)) = true
    by_cases h : startsWithL needle (c :: (pre ++ needle ++ post)) = true
    · simp only [containsSubL]
      rw [if_pos h]
    · simp only [containsSubL]
      rw [if_neg (by simpa using h)]
      exact ih

/-! ## C1 — what the skill header actually contains -/

/-- C1 (counterexample): the claim says the output metadata header of
`convertSkillToOpenCode` contains both the first heading text and the
first block-quote text.  For the input `"# My Title\n> My desc"` (which
has both) with skill folder `foo`, the header is exactly
`skillFrontmatter "foo" "My desc"`, and the heading text `My Title` does
not occur anywhere in it. -/
theorem skill_header_no_heading_text :
    titleMatch "# My Title\n> My desc" = some "My Title" ∧
    descMatch "# My Title\n> My desc" = some "My desc" ∧
    convertSkillContent "foo" "# My Title\n> My desc" =
      skillFrontmatter "foo" "My desc" ++ "\n\n" ++ "# My Title\n> My desc" ++ "\n" ∧
    containsSubL "My Title".data (skillFrontmatter "foo" "My desc").data = false := by
  refine ⟨by decide, by decide, by decide, by decide⟩

/-- C1 (amended): for markdown with both a level-1 heading and a block
quote, the header `convertSkillToOpenCode` emits carries the first
block-quote text as its `description:` value (so the quote text occurs in
the header verbatim); the heading text is not part of the header — it is
only the fallback description when no quote matches. -/
theorem skill_header_quote_is_description (skillName content t q : String)
    (_ht : titleMatch content = some t) (hq : descMatch content = some q) :
    convertSkillContent skillName content =
      skillFrontmatter skillName q ++ "\n\n" ++ content ++ "\n" ∧
    containsSubL q.data (skillFrontmatter skillName q).data = true := by
  constructor
  · simp [convertSkillContent, skillDescription, hq]
  · have hdata : (skillFrontmatter skillName q).data =
        ("---\nname: " ++ skillName ++ "\ndescription: ").data ++ q.data ++
          "\nlicense: MIT\ncompatibility: opencode\nmetadata:\n  source: ai-dev-system\n---".data := by
      simp [skillFrontmatter, String.data_append, List.append_assoc]
    rw [hdata]
    exact containsSubL_append _ _ _

theorem skill_header_quote_is_description_witness :
    convertSkillContent "foo" "# My Title\n> My desc" =
      skillFrontmatter "foo" "My desc" ++ "\n\n" ++ "# My Title\n> My desc" ++ "\n" ∧
    containsSubL "My desc".data (skillFrontmatter "foo" "My desc").data = true :=
  skill_header_quote_is_description "foo" "# My Title\n> My desc" "My Title" "My desc"
    (by decide) (by decide)

/-! ## C2 — which dependencies yield which confidence -/

/-- C2 (counterexample): the claim says every known dependency name —
including `typescript` — yields its stack with `high` confidence.  A
directory whose `package.json` has only `typescript` is detected as
`react-typescript` with `low` confidence. -/
theorem detectStack_typescript_low :
    (detectStack ⟨none, some (some ⟨[("typescript", "^5.0.0")], []⟩), some []⟩).confidence =
      Confidence.low ∧
    Confidence.low ≠ Confidence.high := ⟨by decide, by decide⟩

/-- C2 (amended): a truthy `laravel/framework` in `composer.json` yields
`php-laravel` with high confidence; when composer does not match, a truthy
`react` or `react-dom` in `package.json` yields `react-typescript` with
high confidence, then `express` yields `node-express` with high
confidence; but `typescript` alone yields `react-typescript` with *low*
confidence. -/
theorem detectStack_known_deps (d : ProjectDir) :
    (composerHasLaravel d = true →
      detectStack d = ⟨some .phpLaravel, .high, "Found laravel/framework in composer.json"⟩) ∧
    (composerHasLaravel d = false → packageHasReact d = true →
      detectStack d = ⟨some .reactTypescript, .high, "Found react in package.json"⟩) ∧
    (composerHasLaravel d = false → packageHasReact d = false → packageHasExpress d = true →
      detectStack d = ⟨some .nodeExpress, .high, "Found express in package.json"⟩) ∧
    (composerHasLaravel d = false → packageHasReact d = false → packageHasExpress d = false →
      packageHasTypescript d = true →
      detectStack d = ⟨some .reactTypescript, .low, "Found typescript but no specific framework"⟩) := by
  refine ⟨?_, ?_, ?_, ?_⟩
  · intro h1; simp [detectStack, h1]
  · intro h1 h2; simp [detectStack, h1, h2]
  · intro h1 h2 h3; simp [detectStack, h1, h2, h3]
  · intro h1 h2 h3 h4; simp [detectStack, h1, h2, h3, h4]

theorem detectStack_known_deps_witness :
    detectStack ⟨some (some ⟨[("laravel/framework", "^10.0")], []⟩), none, some []⟩ =
      ⟨some .phpLaravel, .high, "Found laravel/framework in composer.json"⟩ ∧
    detectStack ⟨none, some (some ⟨[("react", "^18.0.0")], []⟩), some []⟩ =
      ⟨some .reactTypescript, .high, "Found react in package.json"⟩ ∧
    detectStack ⟨none, some (some ⟨[("express", "^4.18.0")], []⟩), some []⟩ =
      ⟨some .nodeExpress, .high, "Found express in package.json"⟩ ∧
    detectStack ⟨none, some (some ⟨[("typescript", "^5.0.0")], []⟩), some []⟩ =
      ⟨some .reactTypescript, .low, "Found typescript but no specific framework"⟩ :=
  ⟨(detectStack_known_deps _).1 (by decide),
   (detectStack_known_deps _).2.1 (by decide) (by decide),
   (detectStack_known_deps _).2.2.1 (by decide) (by decide) (by decide),
   (detectStack_known_deps _).2.2.2 (by decide) (by decide) (by decide) (by decide)⟩

/-! ## C5 — fallback behaviour of the detector -/

/-- C5: a malformed manifest (`some none`, the `catch` branch) makes every
manifest guard false; when no manifest guard holds the detector falls back
to scanning top-level file extensions, and when nothing matches there
either it returns stack `none` with low confidence.  The embedding of
`detectStack` is a total function, reflecting that no input throws. -/
theorem detectStack_fallback :
    (∀ d : ProjectDir, d.composer = some none → composerHasLaravel d = false) ∧
    (∀ d : ProjectDir, d.package = some none →
      packageHasReact d = false ∧ packageHasExpress d = false ∧
        packageHasTypescript d = false) ∧
    (∀ d : ProjectDir, composerHasLaravel d = false → packageHasReact d = false →
      packageHasExpress d = false → packageHasTypescript d = false →
      detectStack d = extensionScan d.files) ∧
    (∀ files : Option (List String),
      (files.getD []).any (fun f => f.endsWith ".tsx") = false →
      (files.getD []).any (fun f => f.endsWith ".php") = false →
      extensionScan files = ⟨none, .low, "Could not detect stack"⟩) := by
  refine ⟨?_, ?_, ?_, ?_⟩
  · intro d h; simp [composerHasLaravel, h]
  · intro d h; simp [packageHasReact, packageHasExpress, packageHasTypescript, h]
  · intro d h1 h2 h3 h4; simp [detectStack, h1, h2, h3, h4]
  · intro files h1 h2; simp [extensionScan, h1, h2]

theorem detectStack_fallback_witness :
    composerHasLaravel ⟨some none, some none, none⟩ = false ∧
    packageHasReact ⟨some none, some none, none⟩ = false ∧
    detectStack ⟨some none, some none, none⟩ = ⟨none, .low, "Could not detect stack"⟩ :=
  ⟨detectStack_fallback.1 _ rfl,
   (detectStack_fallback.2.1 _ rfl).1,
   (detectStack_fallback.2.2.1 ⟨some none, some none, none⟩ (by decide) (by decide)
      (by decide) (by decide)).trans
     (detectStack_fallback.2.2.2 none (by decide) (by decide))⟩

/-! ## C6 — priority order of the manifest tests -/

/-- C6: the manifests are tested in a fixed priority order with first
match winning: a laravel match in `composer.json` wins even when
`package.json` also matches react, and within `package.json` the
react/react-dom test precedes the express test. -/
theorem detectStack_priority_order (d : ProjectDir) :
    (composerHasLaravel d = true → packageHasReact d = true →
      detectStack d = ⟨some .phpLaravel, .high, "Found laravel/framework in composer.json"⟩) ∧
    (composerHasLaravel d = false → packageHasReact d = true → packageHasExpress d = true →
      detectStack d = ⟨some .reactTypescript, .high, "Found react in package.json"⟩) := by
  refine ⟨?_, ?_⟩
  · intro h1 _; simp [detectStack, h1]
  · intro h1 h2 _; simp [detectStack, h1, h2]

theorem detectStack_priority_order_witness :
    detectStack ⟨some (some ⟨[("laravel/framework", "^10.0")], []⟩),
        some (some ⟨[("react", "^18.0.0")], []⟩), some []⟩ =
      ⟨some .phpLaravel, .high, "Found laravel/framework in composer.json"⟩ ∧
    detectStack ⟨none,
        some (some ⟨[("react", "^18.0.0"), ("express", "^4.18.0")], []⟩), some []⟩ =
      ⟨some .reactTypescript, .high, "Found react in package.json"⟩ :=
  ⟨(detectStack_priority_order _).1 (by decide) (by decide),
   (detectStack_priority_order _).2 (by decide) (by decide) (by decide)⟩

/-! ## C10 — heading precedence in the agent conversion -/

/-- C10: in `convertAgentToOpenCode` the heading pattern is tried before
the quote pattern (`match(/^#\s+(.+)$/m) || match(/^>\s*(.+)$/m)`), so for
content with both, the emitted description is the heading text — while in
`convertSkillToOpenCode` the quote supplies the description. -/
theorem agent_description_heading_first (agentName content t q : String)
    (ht : titleMatch content = some t) (hq : descMatch content = some q) :
    convertAgentContent agentName content =
      agentFrontmatter t ++ "\n\n" ++ content ++ "\n" ∧
    agentDescription agentName content = t ∧
    skillDescription agentName content = q := by
  refine ⟨?_, ?_, ?_⟩
  · simp [convertAgentContent, agentDescription, ht]
  · simp [agentDescription, ht]
  · simp [skillDescription, hq]

theorem agent_description_heading_first_witness :
    convertAgentContent "bot" "# Agent Title\n> Agent quote" =
      agentFrontmatter "Agent Title" ++ "\n\n" ++ "# Agent Title\n> Agent quote" ++ "\n" ∧
    agentDescription "bot" "# Agent Title\n> Agent quote" = "Agent Title" ∧
    skillDescription "bot" "# Agent Title\n> Agent quote" = "Agent quote" :=
  agent_description_heading_first "bot" "# Agent Title\n> Agent quote" "Agent Title"
    "Agent quote" (by decide) (by decide)

/-! ## File-system lemmas -/

theorem getFile_write_self (fs : FS) (p c : String) :
    getFile (writeFileSync fs p c) p = some c := by
  simp [getFile, writeFileSync, List.find?_cons]

theorem getFile_write_ne (fs : FS) {p q : String} (h : q ≠ p) (c : String) :
    getFile (writeFileSync fs q c) p = getFile fs p := by
  simp [getFile, writeFileSync, List.find?_cons, h]

theorem existsFile_write_of (fs : FS) (p q c : String) (h : existsFile fs p = true) :
    existsFile (writeFileSync fs q c) p = true := by
  by_cases hq : q = p
  · subst hq; simp [existsFile, getFile_write_self]
  · simpa [existsFile, getFile_write_ne fs hq c] using h

theorem copy_preserves_existing (items : List (String × String)) (fs : FS) (p : String)
    (h : existsFile fs p = true) :
    getFile (copyAiDirectory items false fs).1 p = getFile fs p := by
  induction items generalizing fs with
  | nil => rfl
  | cons item rest ih =>
    obtain ⟨q, c⟩ := item
    by_cases hex : existsFile fs q = true
    · simp only [copyAiDirectory]
      rw [if_pos ⟨hex, by simp⟩]
      exact ih fs h
    · simp only [copyAiDirectory]
      rw [if_neg (by simp [hex])]
      have hq : q ≠ p := by
        intro e; subst e; exact hex h
      rw [ih (writeFileSync fs q c) (existsFile_write_of fs p q c h)]
      exact getFile_write_ne fs hq c

theorem copy_creates_all (items : List (String × String)) (fs : FS) (p : String)
    (h : p ∈ items.map Prod.fst) :
    existsFile (copyAiDirectory items false fs).1 p = true := by
  induction items generalizing fs with
  | nil => simp at h
  | cons item rest ih =>
    obtain ⟨q, c⟩ := item
    simp only [List.map_cons, List.mem_cons] at h
    by_cases hex : existsFile fs q = true
    · simp only [copyAiDirectory]
      rw [if_pos ⟨hex, by simp⟩]
      rcases h with h | h
      · subst h
        simp only [existsFile] at hex ⊢
        rw [copy_preserves_existing rest fs p (by exact hex)]
        exact hex
      · exact ih fs h
    · simp only [copyAiDirectory]
      rw [if_neg (by simp [hex])]
      rcases h with h | h
      · subst h
        simp only [existsFile] at *
        rw [copy_preserves_existing rest (writeFileSync fs p c) p
          (by simp [existsFile, getFile_write_self])]
        simp [getFile_write_self]
      · exact ih (writeFileSync fs q c) h

theorem copy_all_existing (items : List (String × String)) (fs : FS)
    (h : ∀ pc ∈ items, existsFile fs pc.1 = true) :
    copyAiDirectory items false fs = (fs, [], items.map Prod.fst) := by
  induction items with
  | nil => rfl
  | cons item rest ih =>
    obtain ⟨q, c⟩ := item
    have hq : existsFile fs q = true := h (q, c) (List.mem_cons_self _ _)
    have hrest : ∀ pc ∈ rest, existsFile fs pc.1 = true :=
      fun pc hpc => h pc (List.mem_cons_of_mem _ hpc)
    simp only [copyAiDirectory]
    rw [if_pos ⟨hq, by simp⟩, ih hrest]
    simp

/-! ## C3 — which operations preserve existing files -/

/-- C3 (counterexample): the claim says no CLI operation overwrites an
existing target file when no overwrite flag is set, including during sync.
But `generateOpenCodeConfig`, run unconditionally by `sync opencode`,
replaces an existing `opencode.json` whose contents differ from the
generated configuration. -/
theorem sync_overwrites_opencode_json :
    getFile (generateOpenCodeConfig [("proj/opencode.json", "old")] "proj")
      ("proj" ++ "/opencode.json") = some openCodeConfigJson ∧
    openCodeConfigJson ≠ "old" ∧
    existsFile [("proj/opencode.json", "old")] ("proj" ++ "/opencode.json") = true := by
  refine ⟨by simp [generateOpenCodeConfig, getFile_write_self], by decide, by decide⟩

/-- C3 (amended): the no-overwrite policy holds for `generateAgentsMd`
(an existing AGENTS.md is left untouched — indeed the whole file system is
unchanged) and for the Directory Synchronizer without the overwrite flag
(every existing path keeps its exact contents); but `generateOpenCodeConfig`
writes `opencode.json` unconditionally, replacing any existing file at
that path. -/
theorem no_clobber_policy :
    (∀ (fs : FS) (projectDir projectName : String),
      existsFile fs (projectDir ++ "/AGENTS.md") = true →
      generateAgentsMd fs projectDir projectName = fs) ∧
    (∀ (items : List (String × String)) (fs : FS) (p : String),
      existsFile fs p = true →
      getFile (copyAiDirectory items false fs).1 p = getFile fs p) ∧
    (∀ (fs : FS) (projectDir : String),
      getFile (generateOpenCodeConfig fs projectDir) (projectDir ++ "/opencode.json") =
        some openCodeConfigJson) := by
  refine ⟨?_, ?_, ?_⟩
  · intro fs projectDir projectName h
    simp [generateAgentsMd, h]
  · exact fun items fs p h => copy_preserves_existing items fs p h
  · intro fs projectDir
    simp [generateOpenCodeConfig, getFile_write_self]

theorem no_clobber_policy_witness :
    generateAgentsMd [("p/AGENTS.md", "keep")] "p" "proj" = [("p/AGENTS.md", "keep")] ∧
    getFile (copyAiDirectory [("p/a.md", "new")] false [("p/a.md", "orig")]).1 "p/a.md" =
      some "orig" ∧
    getFile (generateOpenCodeConfig [] "p") ("p" ++ "/opencode.json") =
      some openCodeConfigJson := by
  refine ⟨no_clobber_policy.1 _ _ _ (by decide), ?_, no_clobber_policy.2.2 [] "p"⟩
  rw [no_clobber_policy.2.1 [("p/a.md", "new")] [("p/a.md", "orig")] "p/a.md" (by decide)]
  decide

/-! ## C4 — idempotence of the Directory Synchronizer -/

/-- C4: running `copyAiDirectory` (modelled from the spec; copy.ts is not
in the source snapshot) a second time against the same target without the
overwrite flag leaves the target file system exactly as after the first
run, reports every item as skipped, and copies nothing. -/
theorem copyAiDirectory_idempotent (items : List (String × String)) (fs : FS) :
    copyAiDirectory items false (copyAiDirectory items false fs).1 =
      ((copyAiDirectory items false fs).1, [], items.map Prod.fst) := by
  apply copy_all_existing
  intro pc hpc
  exact copy_creates_all items fs pc.1 (List.mem_map_of_mem _ hpc)

/-! ## C7 — defaults when heading or quote is missing -/

/-- C7: when the heading pattern does not match, the title falls back to
the skill folder name; when the quote pattern does not match, the
description falls back to `<title> skill`; and the output is always the
fixed `---`-delimited key-value header followed by a blank line and the
original markdown body unchanged. -/
theorem convertSkill_defaults (skillName content : String)
    (_h : titleMatch content = none ∨ descMatch content = none) :
    convertSkillContent skillName content =
      skillFrontmatter skillName (skillDescription skillName content) ++
        "\n\n" ++ content ++ "\n" ∧
    (titleMatch content = none → skillTitle skillName content = skillName) ∧
    (descMatch content = none →
      skillDescription skillName content = skillTitle skillName content ++ " skill") ∧
    (titleMatch content = none → descMatch content = none →
      convertSkillContent skillName content =
        "---\nname: " ++ skillName ++ "\ndescription: " ++ (skillName ++ " skill") ++
          "\nlicense: MIT\ncompatibility: opencode\nmetadata:\n  source: ai-dev-system\n---" ++
          "\n\n" ++ content ++ "\n") := by
  refine ⟨rfl, ?_, ?_, ?_⟩
  · intro ht; simp [skillTitle, ht]
  · intro hd; simp [skillDescription, hd]
  · intro ht hd
    simp [convertSkillContent, skillFrontmatter, skillDescription, skillTitle, ht, hd]

theorem convertSkill_defaults_witness :
    convertSkillContent "my-skill" "plain body" =
      "---\nname: " ++ "my-skill" ++ "\ndescription: " ++ ("my-skill" ++ " skill") ++
        "\nlicense: MIT\ncompatibility: opencode\nmetadata:\n  source: ai-dev-system\n---" ++
        "\n\n" ++ "plain body" ++ "\n" :=
  (convertSkill_defaults "my-skill" "plain body" (Or.inl (by decide))).2.2.2
    (by decide) (by decide)

/-! ## C8 — a missing SKILL.md is skipped silently -/

theorem convertSkillsBatch_append (skillsDir targetDir : String) (l1 l2 : List String)
    (fs : FS) :
    convertSkillsBatch skillsDir targetDir (l1 ++ l2) fs =
      convertSkillsBatch skillsDir targetDir l2 (convertSkillsBatch skillsDir targetDir l1 fs) := by
  induction l1 generalizing fs with
  | nil => rfl
  | cons s rest ih => simp [convertSkillsBatch, ih]

/-- C8: when a skill folder's `SKILL.md` does not exist at the moment the
batch reaches it, the conversion of that folder has no effect at all on
the file system (`convertSkillToOpenCode` returns before writing), and the
whole batch behaves exactly as the batch without that folder — the
remaining conversions still happen. -/
theorem convertSkill_missing_source_skipped (fs : FS) (skillsDir targetDir s : String)
    (pre post : List String)
    (h : getFile (convertSkillsBatch skillsDir targetDir pre fs)
      (skillsDir ++ "/" ++ s ++ "/SKILL.md") = none) :
    convertSkillToOpenCode (convertSkillsBatch skillsDir targetDir pre fs)
      (skillsDir ++ "/" ++ s) targetDir s = convertSkillsBatch skillsDir targetDir pre fs ∧
    convertSkillsBatch skillsDir targetDir (pre ++ s :: post) fs =
      convertSkillsBatch skillsDir targetDir post (convertSkillsBatch skillsDir targetDir pre fs) := by
  have h1 : convertSkillToOpenCode (convertSkillsBatch skillsDir targetDir pre fs)
      (skillsDir ++ "/" ++ s) targetDir s = convertSkillsBatch skillsDir targetDir pre fs := by
    simp [convertSkillToOpenCode, h]
  refine ⟨h1, ?_⟩
  rw [convertSkillsBatch_append]
  simp [convertSkillsBatch, h1]

theorem convertSkill_missing_source_skipped_witness :
    convertSkillToOpenCode (convertSkillsBatch "src" "out" ["a"] [("src/a/SKILL.md", "# A")])
      ("src" ++ "/" ++ "b") "out" "b" =
      convertSkillsBatch "src" "out" ["a"] [("src/a/SKILL.md", "# A")] ∧
    convertSkillsBatch "src" "out" (["a"] ++ "b" :: ["c"]) [("src/a/SKILL.md", "# A")] =
      convertSkillsBatch "src" "out" ["c"]
        (convertSkillsBatch "src" "out" ["a"] [("src/a/SKILL.md", "# A")]) :=
  convertSkill_missing_source_skipped [("src/a/SKILL.md", "# A")] "src" "out" "b"
    ["a"] ["c"] (by decide)

/-! ## C9 — adding an unknown skill changes nothing and lists skills -/

/-- C9: when the requested skill exists neither under `skills/` nor under
any `stacks/<stack>/skills/`, `addSkill` leaves the target untouched and
prints the not-found listing, which names every entry of the core skills
directory.  The embedding is a total function: this code path returns
normally rather than throwing. -/
theorem addSkill_unknown (src : SourceTree) (tgt : TargetState) (targetAiDir name : String)
    (h1 : src.skillDirNames.contains name = false)
    (h2 : ∀ st ∈ src.stackEntries, stackHasSkillDir st name = false) :
    addSkill src tgt targetAiDir name = ⟨tgt, skillNotFoundMessages src name⟩ ∧
    (∀ s ∈ src.skillsEntries,
      ("    - " ++ s) ∈ (addSkill src tgt targetAiDir name).messages) := by
  have hfind : findSkillInStacks src.stackEntries name = none := by
    apply List.find?_eq_none.mpr
    intro st hst
    simp [h2 st hst]
  have heq : addSkill src tgt targetAiDir name = ⟨tgt, skillNotFoundMessages src name⟩ := by
    have h1' : ¬ name ∈ src.skillDirNames := by simpa using h1
    simp [addSkill, h1', hfind]
  refine ⟨heq, ?_⟩
  intro s hs
  rw [heq]
  show ("    - " ++ s) ∈ skillNotFoundMessages src name
  have hent : src.skillsEntries.isEmpty = false := by
    cases e : src.skillsEntries with
    | nil => rw [e] at hs; cases hs
    | cons a l => rfl
  have hmsg : skillNotFoundMessages src name =
      ("Skill not found: " ++ name) :: "Available skills:" ::
        (("  Core skills:" :: src.skillsEntries.map (fun x => "    - " ++ x)) ++
          stackSkillMessages src.stackEntries) := by
    simp [skillNotFoundMessages, hent]
  rw [hmsg]
  exact List.mem_cons_of_mem _ (List.mem_cons_of_mem _ (List.mem_append_left _
    (List.mem_cons_of_mem _ (List.mem_map_of_mem _ hs))))

theorem addSkill_unknown_witness :
    addSkill ⟨["clean-code", "tdd"], ["clean-code", "tdd"],
        [⟨"react-typescript", true, ["hooks"], ["hooks"]⟩]⟩ ⟨["t/.ai"]⟩ "t/.ai"
        "nonexistent-skill" =
      ⟨⟨["t/.ai"]⟩, skillNotFoundMessages
        ⟨["clean-code", "tdd"], ["clean-code", "tdd"],
          [⟨"react-typescript", true, ["hooks"], ["hooks"]⟩]⟩ "nonexistent-skill"⟩ ∧
    ("    - " ++ "clean-code") ∈ (addSkill ⟨["clean-code", "tdd"], ["clean-code", "tdd"],
        [⟨"react-typescript", true, ["hooks"], ["hooks"]⟩]⟩ ⟨["t/.ai"]⟩ "t/.ai"
        "nonexistent-skill").messages :=
  ⟨(addSkill_unknown _ _ "t/.ai" "nonexistent-skill" (by decide) (by decide)).1,
   (addSkill_unknown _ _ "t/.ai" "nonexistent-skill" (by decide) (by decide)).2
     "clean-code" (by decide)⟩
